import Mathlib

/-!
Shallow embedding of the criteria aggregation engine of the aigents-validator
service: the threshold registry, the criterion evaluator, the aggregation
engine (quality wheel), the decision policy and the validator orchestration,
translated from src/validator_service/quality_wheel.py and
src/validator_service/validator.py.  Python dicts are modelled as
insertion-ordered association lists, Python floats as exact rationals, and a
Python KeyError as the error case of an Except computation.
-/

set_option maxHeartbeats 1000000

namespace AigentsValidator

attribute [local semireducible] Rat.mul Rat.add Rat.inv Rat.sub

/-- Threshold configuration for one (criterion, sub-metric) pair
(dataclass CriterionThreshold in quality_wheel.py). -/
structure CriterionThreshold where
  min_value : ℚ
  weight : ℚ
  required : Bool
deriving DecidableEq

/-- The part of one analyzer output that the engine reads: the details
mapping (sub-metric name to score) and the explanation string.  The
top-level score of the analyzer output is never read by the engine. -/
structure CriterionInput where
  details : List (String × ℚ)
  explanation : String
deriving DecidableEq

/-- Result of evaluating one criterion
(dataclass QualityMetric in quality_wheel.py). -/
structure QualityMetric where
  score : ℚ
  details : List (String × ℚ)
  explanation : String
  is_valid : Bool
deriving DecidableEq

/-- The threshold registry: criterion id to sub-metric id to threshold,
a Python dict of dicts modelled as an ordered association list. -/
abbrev Thresholds := List (String × List (String × CriterionThreshold))

/-- The sub-metric table of the Q (quality) criterion in QualityWheel.__init__,
with the decimal weights of the source written as exact rationals. -/
def qTbl : List (String × CriterionThreshold) :=
  [ ("fullness", ⟨6, 4/10, true⟩), ("structure", ⟨6, 3/10, true⟩),
    ("examples", ⟨6, 15/100, false⟩), ("limitations", ⟨6, 15/100, false⟩) ]

/-- The sub-metric table of the R (reproducibility) criterion. -/
def rTbl : List (String × CriterionThreshold) :=
  [ ("steps_clarity", ⟨6, 4/10, true⟩), ("requirements", ⟨6, 3/10, true⟩),
    ("resources", ⟨6, 3/10, true⟩) ]

/-- The sub-metric table of the U (utility) criterion. -/
def uTbl : List (String × CriterionThreshold) :=
  [ ("problem_clarity", ⟨6, 35/100, true⟩), ("benefits", ⟨6, 35/100, true⟩),
    ("efficiency", ⟨6, 30/100, false⟩) ]

/-- The sub-metric table of the A (applicability) criterion. -/
def aTbl : List (String × CriterionThreshold) :=
  [ ("universality", ⟨6, 35/100, true⟩), ("scalability", ⟨6, 35/100, true⟩),
    ("constraints", ⟨6, 30/100, false⟩) ]

/-- The sub-metric table of the I (innovation) criterion. -/
def iTbl : List (String × CriterionThreshold) :=
  [ ("novelty", ⟨6, 4/10, false⟩), ("tech_complexity", ⟨6, 3/10, false⟩),
    ("potential", ⟨6, 3/10, true⟩) ]

/-- The sub-metric table of the Rel (reliability) criterion. -/
def relTbl : List (String × CriterionThreshold) :=
  [ ("empirical_validation", ⟨6, 35/100, true⟩), ("methodology", ⟨6, 25/100, true⟩),
    ("adaptability", ⟨6, 20/100, false⟩), ("external_validation", ⟨6, 20/100, false⟩) ]

/-- The registry built in QualityWheel.__init__. -/
def defaultThresholds : Thresholds :=
  [("Q", qTbl), ("R", rTbl), ("U", uTbl), ("A", aTbl), ("I", iTbl), ("Rel", relTbl)]

/-- Lookup of the threshold configured for a (criterion, sub-metric) pair. -/
def lookup2 (w : Thresholds) (c m : String) : Option CriterionThreshold :=
  (w.lookup c).bind (fun tbl => tbl.lookup m)

/-- The sub-metrics of a details mapping that are configured in the registry
table of the criterion, paired with their threshold; unconfigured keys are
dropped (the continue in the loop of _evaluate_criterion). -/
def configuredMetrics (tbl : List (String × CriterionThreshold)) (details : List (String × ℚ)) :
    List (String × ℚ × CriterionThreshold) :=
  details.filterMap (fun p => (tbl.lookup p.1).map (fun t => (p.1, p.2, t)))

/-- The classification test of _evaluate_criterion: a configured sub-metric is
valid when its value reaches min_value or when it is not required. -/
def metricIsValid (x : String × ℚ × CriterionThreshold) : Bool :=
  decide (x.2.2.min_value ≤ x.2.1) || !x.2.2.required

/-- The valid_metrics dict of _evaluate_criterion, in insertion order. -/
def validMetrics (tbl : List (String × CriterionThreshold)) (details : List (String × ℚ)) :
    List (String × ℚ × CriterionThreshold) :=
  (configuredMetrics tbl details).filter metricIsValid

/-- The invalid_metrics dict of _evaluate_criterion, in insertion order. -/
def invalidMetrics (tbl : List (String × CriterionThreshold)) (details : List (String × ℚ)) :
    List (String × ℚ × CriterionThreshold) :=
  (configuredMetrics tbl details).filter (fun x => !metricIsValid x)

/-- QualityWheel._evaluate_criterion: split the configured sub-metrics into
valid and invalid, compute the weighted score over the valid ones (0.0 when
none is valid), and mark the criterion invalid exactly when some invalid
sub-metric is required. -/
def evaluateCriterion (tbl : List (String × CriterionThreshold)) (inp : CriterionInput) :
    QualityMetric :=
  let v := validMetrics tbl inp.details
  let i := invalidMetrics tbl inp.details
  { score := if v = [] then 0 else (v.map (fun x => x.2.1 * x.2.2.weight)).sum,
    details := v.map (fun x => (x.1, x.2.1)) ++ i.map (fun x => (x.1, x.2.1)),
    explanation := inp.explanation,
    is_valid := if i = [] then true else !(i.any (fun x => x.2.2.required)) }

/-- The generator any(self.thresholds[criterion][m].required for m in
metrics["details"]) at line 100 of quality_wheel.py: it walks every details
key in order, raising KeyError (the error case) on a key that is not
configured for the criterion, and short-circuits at the first required one. -/
def anyRequiredDetails (tbl : List (String × CriterionThreshold)) :
    List (String × ℚ) → Except Unit Bool
  | [] => .ok false
  | (m, _) :: rest =>
    match tbl.lookup m with
    | none => .error ()
    | some t => if t.required then .ok true else anyRequiredDetails tbl rest

/-- The recommendation string built at line 105 of quality_wheel.py. -/
def recString (c expl : String) : String :=
  "Criterion " ++ c ++ " needs improvement: " ++ expl

/-- Accumulator of the criterion loop in QualityWheel.evaluate_practice. -/
structure EvalAcc where
  valid : List (String × QualityMetric)
  invalid : List (String × QualityMetric)
  missing : List String
  recs : List String
deriving DecidableEq

/-- One iteration of the loop of QualityWheel.evaluate_practice: skip unknown
criteria, route the evaluated criterion into valid or invalid scores, extend
missing_required by the line-100 generator (which may raise), and append a
recommendation when the weighted score is below 6. -/
def stepCriterion (w : Thresholds) (acc : EvalAcc) (p : String × CriterionInput) :
    Except Unit EvalAcc :=
  match w.lookup p.1 with
  | none => .ok acc
  | some tbl =>
    let cr := evaluateCriterion tbl p.2
    match (if cr.is_valid then
             Except.ok { acc with valid := acc.valid ++ [(p.1, cr)] }
           else
             match anyRequiredDetails tbl p.2.details with
             | .error e => .error e
             | .ok req =>
               Except.ok { acc with
                 invalid := acc.invalid ++ [(p.1, cr)],
                 missing := if req then acc.missing ++ [p.1] else acc.missing }) with
    | .error e => .error e
    | .ok acc1 =>
      .ok (if cr.score < 6 then
             { acc1 with recs := acc1.recs ++ [recString p.1 cr.explanation] }
           else acc1)

/-- The criterion loop of QualityWheel.evaluate_practice. -/
def evalLoop (w : Thresholds) : EvalAcc → List (String × CriterionInput) → Except Unit EvalAcc
  | acc, [] => .ok acc
  | acc, p :: rest =>
    match stepCriterion w acc p with
    | .error e => .error e
    | .ok acc1 => evalLoop w acc1 rest

/-- The result dict of QualityWheel.evaluate_practice. -/
structure EvalResult where
  valid_scores : List (String × QualityMetric)
  invalid_scores : List (String × QualityMetric)
  missing_required : List String
  final_score : Option ℚ
  reliability_score : Option ℚ
  recommendations : List String
deriving DecidableEq

/-- QualityWheel.evaluate_practice: run the criterion loop, then compute
final_score as the mean of the valid scores only when missing_required is
empty and some valid score exists.  The reliability_score key is initialised
to None and never assigned afterwards. -/
def evaluatePractice (w : Thresholds) (scores : List (String × CriterionInput)) :
    Except Unit EvalResult :=
  match evalLoop w ⟨[], [], [], []⟩ scores with
  | .error e => .error e
  | .ok acc =>
    .ok { valid_scores := acc.valid,
          invalid_scores := acc.invalid,
          missing_required := acc.missing,
          final_score :=
            if acc.missing = [] then
              if acc.valid = [] then none
              else some ((acc.valid.map (fun q => q.2.score)).sum / (acc.valid.length : ℚ))
            else none,
          reliability_score := none,
          recommendations := acc.recs }

/-- PracticeValidator._make_decision. -/
def makeDecision (e : EvalResult) : String :=
  if e.missing_required ≠ [] then "needs_improvement"
  else
    match e.final_score with
    | none => "incomplete"
    | some s => if 7 ≤ s then "approve" else if 5 ≤ s then "review" else "reject"

/-- The report assembled by PracticeValidator.validate_practice. -/
structure ValidationReport where
  scores : List (String × CriterionInput)
  valid_scores : List (String × QualityMetric)
  invalid_scores : List (String × QualityMetric)
  final_score : Option ℚ
  reliability_score : Option ℚ
  recommendations : List String
  decision : String
deriving DecidableEq

/-- PracticeValidator.validate_practice, parametrised by the analyzer outputs
(the analyzers themselves are external collaborators): apply the quality
wheel and assemble the report, with the decision from _make_decision. -/
def validatePractice (w : Thresholds) (scores : List (String × CriterionInput)) :
    Except Unit ValidationReport :=
  match evaluatePractice w scores with
  | .error e => .error e
  | .ok ev =>
    .ok { scores := scores,
          valid_scores := ev.valid_scores,
          invalid_scores := ev.invalid_scores,
          final_score := ev.final_score,
          reliability_score := ev.reliability_score,
          recommendations := ev.recommendations,
          decision := makeDecision ev }

/-- Update every binding of a key of an association list by a function,
leaving other bindings alone (in-place dataclass field mutation under a
dict key, as in adjust_threshold). -/
def updAssoc {β : Type} (l : List (String × β)) (k : String) (f : β → β) : List (String × β) :=
  l.map (fun p => if p.1 = k then (p.1, f p.2) else p)

/-- The field updates of adjust_threshold: each supplied argument overwrites
the matching field, an omitted one leaves it untouched. -/
def applyAdj (t : CriterionThreshold) (mv wt : Option ℚ) (rq : Option Bool) :
    CriterionThreshold :=
  { min_value := mv.getD t.min_value,
    weight := wt.getD t.weight,
    required := rq.getD t.required }

/-- QualityWheel.adjust_threshold as a pure function on the registry: only
when the criterion and the sub-metric are both configured, the threshold of
that pair is updated field-wise; otherwise the registry is unchanged. -/
def adjustThreshold (w : Thresholds) (c m : String) (mv wt : Option ℚ) (rq : Option Bool) :
    Thresholds :=
  match lookup2 w c m with
  | none => w
  | some _ => updAssoc w c (fun tbl => updAssoc tbl m (fun t => applyAdj t mv wt rq))

/-- The criteria that the loop of evaluate_practice routes into valid_scores,
in input order: known criteria whose evaluation is valid. -/
def validOf (w : Thresholds) (scores : List (String × CriterionInput)) :
    List (String × QualityMetric) :=
  scores.filterMap (fun p =>
    match w.lookup p.1 with
    | none => none
    | some tbl =>
      let cr := evaluateCriterion tbl p.2
      if cr.is_valid then some (p.1, cr) else none)

/-- The criteria that the loop routes into invalid_scores, in input order. -/
def invalidOf (w : Thresholds) (scores : List (String × CriterionInput)) :
    List (String × QualityMetric) :=
  scores.filterMap (fun p =>
    match w.lookup p.1 with
    | none => none
    | some tbl =>
      let cr := evaluateCriterion tbl p.2
      if cr.is_valid then none else some (p.1, cr))

/-- The criterion ids appended to missing_required, in input order: invalid
criteria for which the line-100 generator returns true. -/
def missingOf (w : Thresholds) (scores : List (String × CriterionInput)) : List String :=
  scores.filterMap (fun p =>
    match w.lookup p.1 with
    | none => none
    | some tbl =>
      let cr := evaluateCriterion tbl p.2
      if cr.is_valid then none
      else
        match anyRequiredDetails tbl p.2.details with
        | .ok true => some p.1
        | _ => none)

/-- The recommendation strings appended by the loop, in input order: one per
known criterion whose weighted score is below 6, computed from the same score
whether the criterion is valid or invalid. -/
def recsOf (w : Thresholds) (scores : List (String × CriterionInput)) : List String :=
  scores.filterMap (fun p =>
    match w.lookup p.1 with
    | none => none
    | some tbl =>
      let cr := evaluateCriterion tbl p.2
      if cr.score < 6 then some (recString p.1 cr.explanation) else none)

/-- Analyzer output where the Rel criterion has two required sub-metrics both
meeting their thresholds, so that Rel evaluates as valid with score 24/5. -/
def inputRel : List (String × CriterionInput) :=
  [("Rel", ⟨[("empirical_validation", 8), ("methodology", 8)], "ok"⟩)]

/-- The evaluation of the Rel criterion of inputRel. -/
def qmRel : QualityMetric :=
  ⟨24/5, [("empirical_validation", 8), ("methodology", 8)], "ok", true⟩

/-- The engine result on inputRel. -/
def resRel : EvalResult :=
  { valid_scores := [("Rel", qmRel)],
    invalid_scores := [],
    missing_required := [],
    final_score := some (24/5),
    reliability_score := none,
    recommendations := [recString "Rel" "ok"] }

/-- The report assembled by the validator on inputRel. -/
def reportRel : ValidationReport :=
  { scores := inputRel,
    valid_scores := [("Rel", qmRel)],
    invalid_scores := [],
    final_score := some (24/5),
    reliability_score := none,
    recommendations := [recString "Rel" "ok"],
    decision := "reject" }

/-- Analyzer output where the required fullness sub-metric of Q scores 2,
below its min_value of 6. -/
def inputQlow : List (String × CriterionInput) :=
  [("Q", ⟨[("fullness", 2)], "e"⟩)]

/-- The engine result on inputQlow. -/
def resQlow : EvalResult :=
  { valid_scores := [],
    invalid_scores := [("Q", ⟨0, [("fullness", 2)], "e", false⟩)],
    missing_required := ["Q"],
    final_score := none,
    reliability_score := none,
    recommendations := [recString "Q" "e"] }

/-- Analyzer output where the Q criterion reports an empty details mapping. -/
def inputEmptyQ : List (String × CriterionInput) :=
  [("Q", ⟨[], "z"⟩)]

/-- The engine result on inputEmptyQ. -/
def resEmptyQ : EvalResult :=
  { valid_scores := [("Q", ⟨0, [], "z", true⟩)],
    invalid_scores := [],
    missing_required := [],
    final_score := some 0,
    reliability_score := none,
    recommendations := [recString "Q" "z"] }

/-- Analyzer output for the Q criterion where an unconfigured sub-metric key
precedes a failing required one in the details mapping. -/
def inputUnknownKey : List (String × CriterionInput) :=
  [("Q", ⟨[("bogus", 5), ("fullness", 2)], "e"⟩)]

/-- A Q analyzer output with a single passing required sub-metric. -/
def inpQ8 : CriterionInput := ⟨[("fullness", 8)], "x"⟩

theorem filterMap_singleton_append {α β : Type} (f : α → Option β) (p : α) (t : List α) :
    (p :: t).filterMap f = [p].filterMap f ++ t.filterMap f := by
  cases hf : f p <;> simp [List.filterMap_cons, hf]

theorem validOf_cons (w : Thresholds) (p : String × CriterionInput)
    (t : List (String × CriterionInput)) :
    validOf w (p :: t) = validOf w [p] ++ validOf w t :=
  filterMap_singleton_append _ p t

theorem invalidOf_cons (w : Thresholds) (p : String × CriterionInput)
    (t : List (String × CriterionInput)) :
    invalidOf w (p :: t) = invalidOf w [p] ++ invalidOf w t :=
  filterMap_singleton_append _ p t

theorem missingOf_cons (w : Thresholds) (p : String × CriterionInput)
    (t : List (String × CriterionInput)) :
    missingOf w (p :: t) = missingOf w [p] ++ missingOf w t :=
  filterMap_singleton_append _ p t

theorem recsOf_cons (w : Thresholds) (p : String × CriterionInput)
    (t : List (String × CriterionInput)) :
    recsOf w (p :: t) = recsOf w [p] ++ recsOf w t :=
  filterMap_singleton_append _ p t

theorem stepCriterion_ok_eq (w : Thresholds) (acc : EvalAcc) (p : String × CriterionInput)
    (acc1 : EvalAcc) (h : stepCriterion w acc p = .ok acc1) :
    acc1.valid = acc.valid ++ validOf w [p] ∧
    acc1.invalid = acc.invalid ++ invalidOf w [p] ∧
    acc1.missing = acc.missing ++ missingOf w [p] ∧
    acc1.recs = acc.recs ++ recsOf w [p] := by
  unfold stepCriterion at h
  cases hw : w.lookup p.1 with
  | none =>
    rw [hw] at h
    cases h
    simp [validOf, invalidOf, missingOf, recsOf, hw]
  | some tbl =>
    rw [hw] at h
    cases hv : (evaluateCriterion tbl p.2).is_valid with
    | true =>
      simp only [hv, if_true] at h
      by_cases hs : (evaluateCriterion tbl p.2).score < 6
      · simp only [if_pos hs] at h
        cases h
        simp [validOf, invalidOf, missingOf, recsOf, hw, hv, hs]
      · simp only [if_neg hs] at h
        cases h
        simp [validOf, invalidOf, missingOf, recsOf, hw, hv, hs]
    | false =>
      simp only [hv, Bool.false_eq_true, if_false] at h
      cases ha : anyRequiredDetails tbl p.2.details with
      | error e => rw [ha] at h; cases h
      | ok req =>
        rw [ha] at h
        cases req with
        | true =>
          by_cases hs : (evaluateCriterion tbl p.2).score < 6
          · simp only [if_pos hs, if_true] at h
            cases h
            simp [validOf, invalidOf, missingOf, recsOf, hw, hv, ha, hs]
          · simp only [if_neg hs, if_true] at h
            cases h
            simp [validOf, invalidOf, missingOf, recsOf, hw, hv, ha, hs]
        | false =>
          by_cases hs : (evaluateCriterion tbl p.2).score < 6
          · simp only [if_pos hs, Bool.false_eq_true, if_false] at h
            cases h
            simp [validOf, invalidOf, missingOf, recsOf, hw, hv, ha, hs]
          · simp only [if_neg hs, Bool.false_eq_true, if_false] at h
            cases h
            simp [validOf, invalidOf, missingOf, recsOf, hw, hv, ha, hs]

theorem evalLoop_ok_eq (w : Thresholds) (l : List (String × CriterionInput)) :
    ∀ acc res, evalLoop w acc l = .ok res →
    res.valid = acc.valid ++ validOf w l ∧
    res.invalid = acc.invalid ++ invalidOf w l ∧
    res.missing = acc.missing ++ missingOf w l ∧
    res.recs = acc.recs ++ recsOf w l := by
  induction l with
  | nil =>
    intro acc res h
    simp only [evalLoop] at h
    cases h
    simp [validOf, invalidOf, missingOf, recsOf]
  | cons p t ih =>
    intro acc res h
    simp only [evalLoop] at h
    cases hs : stepCriterion w acc p with
    | error e => rw [hs] at h; cases h
    | ok acc1 =>
      rw [hs] at h
      obtain ⟨h1, h2, h3, h4⟩ := stepCriterion_ok_eq w acc p acc1 hs
      obtain ⟨g1, g2, g3, g4⟩ := ih acc1 res h
      refine ⟨?_, ?_, ?_, ?_⟩
      · rw [g1, h1, List.append_assoc, validOf_cons w p t]
      · rw [g2, h2, List.append_assoc, invalidOf_cons w p t]
      · rw [g3, h3, List.append_assoc, missingOf_cons w p t]
      · rw [g4, h4, List.append_assoc, recsOf_cons w p t]

theorem evalLoop_ok_step_mem (w : Thresholds) (l : List (String × CriterionInput)) :
    ∀ acc res p, evalLoop w acc l = .ok res → p ∈ l →
    ∃ a b, stepCriterion w a p = .ok b := by
  induction l with
  | nil => intro acc res p h hp; cases hp
  | cons q t ih =>
    intro acc res p h hp
    simp only [evalLoop] at h
    cases hs : stepCriterion w acc q with
    | error e => rw [hs] at h; cases h
    | ok acc1 =>
      rw [hs] at h
      rcases List.mem_cons.mp hp with heq | hmem
      · exact ⟨acc, acc1, heq ▸ hs⟩
      · exact ih acc1 res p h hmem

theorem anyRequiredDetails_ne_ok_false (tbl : List (String × CriterionThreshold))
    (m : String) (v : ℚ) (t : CriterionThreshold)
    (ht : tbl.lookup m = some t) (hr : t.required = true) :
    ∀ details, (m, v) ∈ details → anyRequiredDetails tbl details ≠ .ok false := by
  intro details
  induction details with
  | nil => intro hm; cases hm
  | cons q rest ih =>
    intro hm
    obtain ⟨m0, v0⟩ := q
    rcases List.mem_cons.mp hm with heq | hmem
    · cases heq
      simp only [anyRequiredDetails]
      rw [ht]
      simp [hr]
    · intro hc
      simp only [anyRequiredDetails] at hc
      cases hl : tbl.lookup m0 with
      | none => rw [hl] at hc; cases hc
      | some t0 =>
        rw [hl] at hc
        by_cases hq : t0.required = true
        · simp [hq] at hc
        · simp only [hq, if_neg] at hc
          exact ih hmem hc

theorem stepCriterion_ok_anyRequired (w : Thresholds) (acc : EvalAcc)
    (p : String × CriterionInput) (b : EvalAcc) (tbl : List (String × CriterionThreshold))
    (h : stepCriterion w acc p = .ok b) (hw : w.lookup p.1 = some tbl)
    (hv : (evaluateCriterion tbl p.2).is_valid = false) :
    ∃ r, anyRequiredDetails tbl p.2.details = .ok r := by
  unfold stepCriterion at h
  rw [hw] at h
  simp only [hv, Bool.false_eq_true, if_false] at h
  cases ha : anyRequiredDetails tbl p.2.details with
  | error e => rw [ha] at h; cases h
  | ok r => exact ⟨r, rfl⟩

theorem evaluateCriterion_invalid_of_required_below
    (tbl : List (String × CriterionThreshold)) (inp : CriterionInput)
    (m : String) (v : ℚ) (t : CriterionThreshold)
    (hm : (m, v) ∈ inp.details) (ht : tbl.lookup m = some t)
    (hr : t.required = true) (hv : v < t.min_value) :
    (evaluateCriterion tbl inp).is_valid = false := by
  have hc : (m, v, t) ∈ configuredMetrics tbl inp.details := by
    unfold configuredMetrics
    refine List.mem_filterMap.mpr ⟨(m, v), hm, ?_⟩
    rw [ht]
    rfl
  have hmv : metricIsValid (m, v, t) = false := by
    unfold metricIsValid
    simp [hr, not_le.mpr hv]
  have hi : (m, v, t) ∈ invalidMetrics tbl inp.details := by
    unfold invalidMetrics
    exact List.mem_filter.mpr ⟨hc, by simp [hmv]⟩
  have hne : invalidMetrics tbl inp.details ≠ [] := by
    intro h0
    rw [h0] at hi
    cases hi
  have hany : (invalidMetrics tbl inp.details).any (fun x => x.2.2.required) = true :=
    List.any_eq_true.mpr ⟨_, hi, hr⟩
  simp [evaluateCriterion, hne, hany]

theorem assoc_keys_nodup_val_eq {β : Type} (l : List (String × β)) (k : String) (a b : β)
    (hnd : (l.map Prod.fst).Nodup) (ha : (k, a) ∈ l) (hb : (k, b) ∈ l) : a = b := by
  induction l with
  | nil => cases ha
  | cons q rest ih =>
    rw [List.map_cons, List.nodup_cons] at hnd
    rcases List.mem_cons.mp ha with h1 | h1 <;> rcases List.mem_cons.mp hb with h2 | h2
    · rw [← h1] at h2
      injection h2 with e1 e2
      exact e2.symm
    · subst h1
      exact absurd (List.mem_map.mpr ⟨(k, b), h2, rfl⟩) hnd.1
    · subst h2
      exact absurd (List.mem_map.mpr ⟨(k, a), h1, rfl⟩) hnd.1
    · exact ih hnd.2 h1 h2

/-- C3: the decision policy of _make_decision follows the five rules in strict
order, with a non-empty missing_required dominating any score, absent
final_score mapping to incomplete, and the 7 and 5 boundaries inclusive. -/
theorem decision_policy_strict_order (e : EvalResult) :
    (e.missing_required ≠ [] → makeDecision e = "needs_improvement") ∧
    (e.missing_required = [] → e.final_score = none → makeDecision e = "incomplete") ∧
    (∀ s, e.missing_required = [] → e.final_score = some s → 7 ≤ s →
      makeDecision e = "approve") ∧
    (∀ s, e.missing_required = [] → e.final_score = some s → 5 ≤ s → s < 7 →
      makeDecision e = "review") ∧
    (∀ s, e.missing_required = [] → e.final_score = some s → s < 5 →
      makeDecision e = "reject") := by
  refine ⟨fun h => ?_, fun h hf => ?_, fun s h hf h7 => ?_, fun s h hf h5 h7 => ?_,
    fun s h hf h5 => ?_⟩
  · simp [makeDecision, h]
  · simp [makeDecision, h, hf]
  · simp [makeDecision, h, hf, h7]
  · simp [makeDecision, h, hf, h5, not_le.mpr h7]
  · have h7 : ¬ (7 : ℚ) ≤ s := not_le.mpr (h5.trans (by norm_num))
    simp [makeDecision, h, hf, h7, not_le.mpr h5]

/-- Witness for C3 at a concrete evaluation where missing_required is
non-empty while final_score is 9. -/
theorem decision_policy_strict_order_witness :
    makeDecision ⟨[], [], ["Q"], some 9, none, []⟩ = "needs_improvement" :=
  (decision_policy_strict_order ⟨[], [], ["Q"], some 9, none, []⟩).1 (by decide)

/-- C6: a configured sub-metric is classified valid exactly when its value
reaches min_value or it is not required, and the criterion score is the sum
of value times weight over the valid sub-metrics (0 when none is valid,
since the sum over the empty list is 0). -/
theorem criterion_classification_and_score (tbl : List (String × CriterionThreshold))
    (inp : CriterionInput) :
    (∀ m v t, (m, v, t) ∈ configuredMetrics tbl inp.details →
      ((m, v, t) ∈ validMetrics tbl inp.details ↔ (t.min_value ≤ v ∨ t.required = false))) ∧
    (evaluateCriterion tbl inp).score =
      ((validMetrics tbl inp.details).map (fun x => x.2.1 * x.2.2.weight)).sum := by
  constructor
  · intro m v t hmem
    unfold validMetrics
    rw [List.mem_filter]
    constructor
    · rintro ⟨-, hp⟩
      simpa [metricIsValid] using hp
    · intro hor
      refine ⟨hmem, ?_⟩
      simpa [metricIsValid] using hor
  · by_cases h : validMetrics tbl inp.details = [] <;> simp [evaluateCriterion, h]

/-- Witness for C6 at the Q table and a single passing required sub-metric. -/
theorem criterion_classification_and_score_witness :
    (("fullness", (8 : ℚ), (⟨6, 4/10, true⟩ : CriterionThreshold)) ∈
       validMetrics qTbl inpQ8.details) ∧
    (evaluateCriterion qTbl inpQ8).score =
      ((validMetrics qTbl inpQ8.details).map (fun x => x.2.1 * x.2.2.weight)).sum :=
  ⟨((criterion_classification_and_score qTbl inpQ8).1 "fullness" 8 ⟨6, 4/10, true⟩
      (by decide)).mpr (Or.inl (by norm_num)),
   (criterion_classification_and_score qTbl inpQ8).2⟩

/-- C1: on analyzer output where the Rel criterion is valid with weighted
score 24/5, the assembled report still carries reliability_score none: the
key is initialised to None in evaluate_practice and never assigned. -/
theorem reliability_score_never_assigned :
    validatePractice defaultThresholds inputRel = .ok reportRel ∧
    reportRel.reliability_score = none ∧
    reportRel.valid_scores.lookup "Rel" = some qmRel ∧
    qmRel.score = 24/5 :=
  ⟨rfl, rfl, rfl, rfl⟩

/-- C2: with an unconfigured sub-metric key placed before the failing required
one, the criterion evaluator itself drops the unknown key from the details it
returns, yet evaluate_practice raises (the KeyError of the line-100 generator)
instead of completing. -/
theorem unknown_submetric_key_raises :
    evaluatePractice defaultThresholds inputUnknownKey = .error () ∧
    (evaluateCriterion qTbl ⟨[("bogus", 5), ("fullness", 2)], "e"⟩).details =
      [("fullness", 2)] :=
  ⟨rfl, rfl⟩

/-- Counterexample for C7: invoked with zero criteria, evaluate_practice
returns an ordinary result (not an error). -/
theorem zero_criteria_returns_ok :
    evaluatePractice defaultThresholds [] = .ok ⟨[], [], [], none, none, []⟩ := rfl

/-- C7 as amended: for every registry, an evaluation invoked with zero
criteria returns an ordinary all-empty result with final_score absent, and
the decision policy turns it into incomplete; no error is signalled. -/
theorem zero_criteria_incomplete (w : Thresholds) :
    evaluatePractice w [] = .ok ⟨[], [], [], none, none, []⟩ ∧
    makeDecision ⟨[], [], [], none, none, []⟩ = "incomplete" :=
  ⟨rfl, rfl⟩

/-- C4: a criterion of the input that has a configured required sub-metric
scoring below its min_value is routed into invalid_scores (and not into
valid_scores) and its id is appended to missing_required. -/
theorem required_below_min_invalid_and_missing
    (w : Thresholds) (scores : List (String × CriterionInput)) (res : EvalResult)
    (c : String) (ci : CriterionInput) (tbl : List (String × CriterionThreshold))
    (m : String) (v : ℚ) (t : CriterionThreshold)
    (hok : evaluatePractice w scores = .ok res)
    (hnd : (scores.map Prod.fst).Nodup)
    (hc : (c, ci) ∈ scores)
    (hw : w.lookup c = some tbl)
    (hm : (m, v) ∈ ci.details)
    (ht : tbl.lookup m = some t)
    (hr : t.required = true)
    (hv : v < t.min_value) :
    c ∈ res.invalid_scores.map Prod.fst ∧
    c ∉ res.valid_scores.map Prod.fst ∧
    c ∈ res.missing_required := by
  have hcrv : (evaluateCriterion tbl ci).is_valid = false :=
    evaluateCriterion_invalid_of_required_below tbl ci m v t hm ht hr hv
  unfold evaluatePractice at hok
  cases hl : evalLoop w ⟨[], [], [], []⟩ scores with
  | error e => rw [hl] at hok; cases hok
  | ok acc =>
    rw [hl] at hok
    cases hok
    obtain ⟨e1, e2, e3, e4⟩ := evalLoop_ok_eq w scores ⟨[], [], [], []⟩ acc hl
    simp only [List.nil_append] at e1 e2 e3 e4
    refine ⟨?_, ?_, ?_⟩
    · show c ∈ acc.invalid.map Prod.fst
      rw [e2]
      refine List.mem_map.mpr ⟨(c, evaluateCriterion tbl ci), ?_, rfl⟩
      unfold invalidOf
      refine List.mem_filterMap.mpr ⟨(c, ci), hc, ?_⟩
      simp [hw, hcrv]
    · show c ∉ acc.valid.map Prod.fst
      rw [e1]
      intro hmem
      obtain ⟨⟨c', qm⟩, hqm, hfst⟩ := List.mem_map.mp hmem
      unfold validOf at hqm
      obtain ⟨p, hp, hfp⟩ := List.mem_filterMap.mp hqm
      cases hpw : w.lookup p.1 with
      | none => rw [hpw] at hfp; cases hfp
      | some tbl' =>
        rw [hpw] at hfp
        cases hpv : (evaluateCriterion tbl' p.2).is_valid with
        | false => simp [hpv] at hfp
        | true =>
          simp only [hpv, if_true, Option.some.injEq] at hfp
          have hp1 : p.1 = c := by
            have := congrArg Prod.fst hfp
            simpa using this.trans hfst
          obtain ⟨pa, pb⟩ := p
          simp only at hp1
          subst hp1
          have hpb : pb = ci := assoc_keys_nodup_val_eq scores pa pb ci hnd hp hc
          subst hpb
          rw [hpw] at hw
          injection hw with hw
          subst hw
          rw [hcrv] at hpv
          cases hpv
    · show c ∈ acc.missing
      rw [e3]
      obtain ⟨a, b, hstep⟩ := evalLoop_ok_step_mem w scores ⟨[], [], [], []⟩ acc (c, ci) hl hc
      obtain ⟨r, har⟩ := stepCriterion_ok_anyRequired w a (c, ci) b tbl hstep hw hcrv
      have hrt : r = true := by
        cases r with
        | false => exact absurd har (anyRequiredDetails_ne_ok_false tbl m v t ht hr ci.details hm)
        | true => rfl
      subst hrt
      unfold missingOf
      refine List.mem_filterMap.mpr ⟨(c, ci), hc, ?_⟩
      simp [hw, hcrv, har]

/-- Witness for C4 on the inputQlow run, where the required fullness
sub-metric of Q scores 2 against a min_value of 6. -/
theorem required_below_min_invalid_and_missing_witness :
    "Q" ∈ resQlow.invalid_scores.map Prod.fst ∧
    "Q" ∉ resQlow.valid_scores.map Prod.fst ∧
    "Q" ∈ resQlow.missing_required :=
  required_below_min_invalid_and_missing defaultThresholds inputQlow resQlow
    "Q" ⟨[("fullness", 2)], "e"⟩ qTbl "fullness" 2 ⟨6, 4/10, true⟩
    (by rfl) (by decide) (by decide) (by rfl) (by decide) (by rfl) (by rfl) (by decide)

/-- C5: when final_score is present it is the unweighted arithmetic mean of
the valid criterion scores, and it is absent whenever missing_required is
non-empty. -/
theorem final_score_mean_of_valid (w : Thresholds) (scores : List (String × CriterionInput))
    (res : EvalResult) (hok : evaluatePractice w scores = .ok res) :
    (res.missing_required ≠ [] → res.final_score = none) ∧
    (∀ q, res.final_score = some q →
      res.valid_scores ≠ [] ∧
      q = ((res.valid_scores.map (fun p => p.2.score)).sum / (res.valid_scores.length : ℚ))) := by
  unfold evaluatePractice at hok
  cases hl : evalLoop w ⟨[], [], [], []⟩ scores with
  | error e => rw [hl] at hok; cases hok
  | ok acc =>
    rw [hl] at hok
    cases hok
    constructor
    · intro hne
      show (if acc.missing = [] then _ else none) = none
      simp only at hne
      rw [if_neg hne]
    · intro q hq
      show acc.valid ≠ [] ∧ q = ((acc.valid.map (fun p => p.2.score)).sum / (acc.valid.length : ℚ))
      simp only at hq
      by_cases hmiss : acc.missing = []
      · rw [if_pos hmiss] at hq
        by_cases hval : acc.valid = []
        · rw [if_pos hval] at hq; cases hq
        · rw [if_neg hval] at hq
          injection hq with hq
          exact ⟨hval, hq.symm⟩
      · rw [if_neg hmiss] at hq; cases hq

/-- Witness for C5 on the inputRel run, whose single valid criterion has
score 24/5 and whose final_score is 24/5. -/
theorem final_score_mean_of_valid_witness :
    resRel.valid_scores ≠ [] ∧
    (24/5 : ℚ) = ((resRel.valid_scores.map (fun p => p.2.score)).sum /
      (resRel.valid_scores.length : ℚ)) :=
  (final_score_mean_of_valid defaultThresholds inputRel resRel (by rfl)).2 (24/5) (by rfl)

/-- C8: the recommendation list is exactly one explanation-derived string per
known criterion with weighted score below 6, in input order, computed from
the same score whether the criterion is valid or invalid (recsOf makes no
reference to validity). -/
theorem recommendations_characterisation (w : Thresholds)
    (scores : List (String × CriterionInput)) (res : EvalResult)
    (hok : evaluatePractice w scores = .ok res) :
    res.recommendations = recsOf w scores := by
  unfold evaluatePractice at hok
  cases hl : evalLoop w ⟨[], [], [], []⟩ scores with
  | error e => rw [hl] at hok; cases hok
  | ok acc =>
    rw [hl] at hok
    cases hok
    have h := (evalLoop_ok_eq w scores ⟨[], [], [], []⟩ acc hl).2.2.2
    simpa using h

/-- Witness for C8 on the inputQlow run. -/
theorem recommendations_characterisation_witness :
    resQlow.recommendations = recsOf defaultThresholds inputQlow :=
  recommendations_characterisation defaultThresholds inputQlow resQlow (by rfl)

/-- C9: a criterion with an empty details mapping evaluates to score 0 and
is_valid true, and is routed into valid_scores. -/
theorem empty_details_valid_zero (w : Thresholds) (scores : List (String × CriterionInput))
    (res : EvalResult) (c : String) (ci : CriterionInput)
    (tbl : List (String × CriterionThreshold))
    (hok : evaluatePractice w scores = .ok res) (hc : (c, ci) ∈ scores)
    (hw : w.lookup c = some tbl) (hd : ci.details = []) :
    (evaluateCriterion tbl ci).score = 0 ∧
    (evaluateCriterion tbl ci).is_valid = true ∧
    (c, evaluateCriterion tbl ci) ∈ res.valid_scores := by
  have hvm : validMetrics tbl ci.details = [] := by
    simp [validMetrics, configuredMetrics, hd]
  have him : invalidMetrics tbl ci.details = [] := by
    simp [invalidMetrics, configuredMetrics, hd]
  have hscore : (evaluateCriterion tbl ci).score = 0 := by
    simp [evaluateCriterion, hvm]
  have hvalid : (evaluateCriterion tbl ci).is_valid = true := by
    simp [evaluateCriterion, him]
  refine ⟨hscore, hvalid, ?_⟩
  unfold evaluatePractice at hok
  cases hl : evalLoop w ⟨[], [], [], []⟩ scores with
  | error e => rw [hl] at hok; cases hok
  | ok acc =>
    rw [hl] at hok
    cases hok
    have h := (evalLoop_ok_eq w scores ⟨[], [], [], []⟩ acc hl).1
    simp only [List.nil_append] at h
    show (c, evaluateCriterion tbl ci) ∈ acc.valid
    rw [h]
    unfold validOf
    refine List.mem_filterMap.mpr ⟨(c, ci), hc, ?_⟩
    simp [hw, hvalid]

/-- Witness for C9 on the inputEmptyQ run. -/
theorem empty_details_valid_zero_witness :
    (evaluateCriterion qTbl ⟨[], "z"⟩).score = 0 ∧
    (evaluateCriterion qTbl ⟨[], "z"⟩).is_valid = true ∧
    ("Q", evaluateCriterion qTbl ⟨[], "z"⟩) ∈ resEmptyQ.valid_scores :=
  empty_details_valid_zero defaultThresholds inputEmptyQ resEmptyQ "Q" ⟨[], "z"⟩ qTbl
    (by rfl) (by decide) (by rfl) (by rfl)

theorem updAssoc_cons {β : Type} (k0 : String) (b : β) (rest : List (String × β))
    (k : String) (f : β → β) :
    updAssoc ((k0, b) :: rest) k f =
      (if k0 = k then (k0, f b) else (k0, b)) :: updAssoc rest k f := rfl

theorem lookup_updAssoc_self {β : Type} (l : List (String × β)) (k : String) (f : β → β) :
    (updAssoc l k f).lookup k = (l.lookup k).map f := by
  induction l with
  | nil => rfl
  | cons q rest ih =>
    obtain ⟨k0, b⟩ := q
    rw [updAssoc_cons]
    by_cases hk : k0 = k
    · subst hk
      rw [if_pos rfl]
      simp
    · have hb : (k == k0) = false := by simp [Ne.symm hk]
      rw [if_neg hk, List.lookup_cons, List.lookup_cons, hb]
      exact ih

theorem lookup_updAssoc_ne {β : Type} (l : List (String × β)) (k k' : String) (f : β → β)
    (h : k' ≠ k) : (updAssoc l k f).lookup k' = l.lookup k' := by
  induction l with
  | nil => rfl
  | cons q rest ih =>
    obtain ⟨k0, b⟩ := q
    rw [updAssoc_cons]
    by_cases hk : k0 = k
    · subst hk
      have hb : (k' == k0) = false := by simp [h]
      rw [if_pos rfl, List.lookup_cons, List.lookup_cons, hb]
      exact ih
    · by_cases hk' : k' = k0
      · subst hk'
        rw [if_neg hk]
        simp
      · have hb : (k' == k0) = false := by simp [hk']
        rw [if_neg hk, List.lookup_cons, List.lookup_cons, hb]
        exact ih

/-- C10: adjust_threshold preserves the configured (criterion, sub-metric)
domain of the registry: a call naming an unconfigured pair leaves the
registry unchanged, a call naming a configured pair changes only that pair,
overwriting exactly the supplied fields, and every pair keeps its
configured-or-not status. -/
theorem adjust_threshold_updates (w : Thresholds) (c m : String)
    (mv wt : Option ℚ) (rq : Option Bool) :
    (lookup2 w c m = none → adjustThreshold w c m mv wt rq = w) ∧
    (∀ c' m', ¬(c' = c ∧ m' = m) →
      lookup2 (adjustThreshold w c m mv wt rq) c' m' = lookup2 w c' m') ∧
    (∀ t, lookup2 w c m = some t →
      lookup2 (adjustThreshold w c m mv wt rq) c m = some (applyAdj t mv wt rq)) ∧
    (∀ c' m', (lookup2 (adjustThreshold w c m mv wt rq) c' m').isSome =
      (lookup2 w c' m').isSome) := by
  have hnone : lookup2 w c m = none → adjustThreshold w c m mv wt rq = w := by
    intro h
    unfold adjustThreshold
    rw [h]
  have hother : ∀ c' m', ¬(c' = c ∧ m' = m) →
      lookup2 (adjustThreshold w c m mv wt rq) c' m' = lookup2 w c' m' := by
    intro c' m' hne
    unfold adjustThreshold
    cases hcm : lookup2 w c m with
    | none => rfl
    | some t0 =>
      by_cases hcc : c' = c
      · subst hcc
        have hmm : m' ≠ m := fun hm => hne ⟨rfl, hm⟩
        unfold lookup2
        rw [lookup_updAssoc_self]
        cases hwc : w.lookup c' with
        | none => rfl
        | some tbl => simp [lookup_updAssoc_ne tbl m m' _ hmm]
      · unfold lookup2
        rw [lookup_updAssoc_ne w c c' _ hcc]
  have htarget : ∀ t, lookup2 w c m = some t →
      lookup2 (adjustThreshold w c m mv wt rq) c m = some (applyAdj t mv wt rq) := by
    intro t h
    unfold adjustThreshold
    rw [h]
    unfold lookup2 at h ⊢
    cases hwc : w.lookup c with
    | none => rw [hwc] at h; cases h
    | some tbl =>
      rw [hwc] at h
      simp only [Option.some_bind] at h
      rw [lookup_updAssoc_self, hwc]
      simp [lookup_updAssoc_self, h]
  refine ⟨hnone, hother, htarget, ?_⟩
  intro c' m'
  by_cases hcc : c' = c ∧ m' = m
  · obtain ⟨rfl, rfl⟩ := hcc
    cases hcm : lookup2 w c' m' with
    | none => rw [hnone hcm, hcm]
    | some t => rw [htarget t hcm]; rfl
  · rw [hother c' m' hcc]

/-- Witness for C10: lowering the min_value of the (Q, fullness) pair of the
default registry changes only that threshold and only its min_value, and
leaves the (Q, structure) pair untouched. -/
theorem adjust_threshold_updates_witness :
    lookup2 (adjustThreshold defaultThresholds "Q" "fullness" (some 5) none none)
      "Q" "structure" = lookup2 defaultThresholds "Q" "structure" ∧
    lookup2 (adjustThreshold defaultThresholds "Q" "fullness" (some 5) none none)
      "Q" "fullness" = some ⟨5, 4/10, true⟩ :=
  ⟨(adjust_threshold_updates defaultThresholds "Q" "fullness" (some 5) none none).2.1
      "Q" "structure" (by decide),
   (adjust_threshold_updates defaultThresholds "Q" "fullness" (some 5) none none).2.2.1
      ⟨6, 4/10, true⟩ (by rfl)⟩

end AigentsValidator
